import Mathlib

/-!
Verification of the daily-resampling and sensor-comparison pipeline of the
COSMOS-UK soil-moisture notebook (the `site_daily` routine).

The pipeline is embedded shallowly:
* a table is column-oriented: a list of dates (the row key) together with
  named columns of optional rational values (`none` models a missing cell,
  pandas `NaN`);
* timestamps are minutes since an epoch; truncation to calendar date is
  integer division by the number of minutes in a day (`dt.date`);
* the Daily Aggregator is `groupby(DATE_TIME.dt.date)[VWC columns].mean()`;
* the Series Aligner is `daily_dataset.join(daily_aggregate)` (a left join
  on the index) followed by column selection and `dropna(axis=1, how='all')`;
* the Reshaper is `pd.melt(..., id_vars='DATE_TIME')`.
-/

deriving instance DecidableEq for Except

namespace Cosmos

/-- Suffix identifying volumetric-water-content channels (`'_VWC'`). -/
def vwcSuffix : String := "_VWC"

/-- The native daily VWC channel name (`'COSMOS_VWC'`). -/
def cosmosCol : String := "COSMOS_VWC"

/-- A cell value: `none` models pandas `NaN` (missing). -/
abbrev Value := Option ℚ

/-- A named measurement column: channel name and one cell per row. -/
abbrev Col := String × List Value

/-- Minutes in a calendar day; timestamps are minutes since an epoch. -/
def minutesPerDay : Nat := 1440

/-- Truncation of a timestamp to its calendar date (`DATE_TIME.dt.date`). -/
def tsDate (t : Nat) : Nat := t / minutesPerDay

/-- A raw source table as returned by the catalog: an optional `DATE_TIME`
column (absent when the CSV lacks it; an entry is `none` when it failed to
parse as a datetime) and named measurement columns. -/
structure SrcTable where
  dateTime : Option (List (Option Nat))
  cols : List Col
deriving DecidableEq

/-- A date-indexed wide table: `dates` is the row key (one entry per row),
`cols` the value columns, each with one cell per row. -/
structure DailyTable where
  dates : List Nat
  cols : List Col
deriving DecidableEq

/-- A long-form record produced by the Reshaper (`pd.melt`): one
(timestamp, sensor, value) triple. -/
structure LongRec where
  timestamp : Nat
  sensor : String
  value : Value
deriving DecidableEq

/-- Every column of a wide table has one cell per row. -/
def DailyTable.wf (t : DailyTable) : Prop :=
  ∀ c ∈ t.cols, c.2.length = t.dates.length

instance (t : DailyTable) : Decidable t.wf := by
  unfold DailyTable.wf; infer_instance

/-- Python's `str.endswith(suffix)`: the suffix test on the character
sequence of the name. -/
def nameEndsWith (n post : String) : Bool := post.data.isSuffixOf n.data

/-- Names of the sub-daily channels that carry the VWC suffix
(`subhourly_dataset.columns.str.endswith('_VWC')`). -/
def vwcNames (t : SrcTable) : List String :=
  (t.cols.map Prod.fst).filter (fun n => nameEndsWith n vwcSuffix)

/-- Column lookup by name (first match, as in a pandas column index). -/
def lookupCol (n : String) : List Col → Option (List Value)
  | [] => none
  | c :: cs => if c.1 = n then some c.2 else lookupCol n cs

/-- Insert a date into a sorted duplicate-free list, keeping it sorted and
duplicate-free (building block of the sorted distinct group keys that
pandas `groupby` produces). -/
def insertDate (d : Nat) : List Nat → List Nat
  | [] => [d]
  | e :: es => if d < e then d :: e :: es else if d = e then e :: es else e :: insertDate d es

/-- The sorted list of distinct dates occurring in a list (the group keys
of `groupby(DATE_TIME.dt.date)`, which sorts keys ascending). -/
def sortDedup (ds : List Nat) : List Nat := ds.foldr insertDate []

/-- The non-missing observations of a column that fall on date `d`:
`rowDates` gives each row's calendar date. -/
def groupVals (rowDates : List Nat) (vs : List Value) (d : Nat) : List ℚ :=
  (rowDates.zip vs).filterMap (fun p => if p.1 = d then p.2 else none)

/-- pandas `mean` with `skipna=True`: the arithmetic mean of the non-missing
observations, `NaN` when there are none. -/
def meanOpt (vs : List ℚ) : Value :=
  if vs.length = 0 then none else some (vs.sum / (vs.length : ℚ))

/-- The error raised at the Aggregator boundary: the `DATE_TIME` column is
absent (`KeyError`) or holds unparsed values (`.dt` on a non-datetime). -/
inductive AggError where
  | invalidInput
deriving DecidableEq

/-- The Daily Aggregator:
`subhourly_dataset.groupby(subhourly_dataset['DATE_TIME'].dt.date)[VWC columns].mean()`
with the group keys cast back to datetimes. Fails when `DATE_TIME` is
absent or any entry is unparsed. -/
def dailyAggregate (t : SrcTable) : Except AggError DailyTable :=
  match t.dateTime with
  | none => .error .invalidInput
  | some raw =>
    if raw.all Option.isSome then
      let rowDates := (raw.filterMap id).map tsDate
      let ds := sortDedup rowDates
      .ok { dates := ds
          , cols := (t.cols.filter (fun c => nameEndsWith c.1 vwcSuffix)).map
              (fun c => (c.1, ds.map (fun d => meanOpt (groupVals rowDates c.2 d)))) }
    else .error .invalidInput

/-- The value a right table contributes at key `d` in a left join: missing
when `d` is not among the right table's keys. -/
def rowLookup (dates : List Nat) (vs : List Value) (d : Nat) : Value :=
  match (dates.zip vs).find? (fun p => p.1 == d) with
  | none => none
  | some p => p.2

/-- Cell of a wide table at column `n`, row key `d` (missing when the
column or the key is absent). -/
def getCell (t : DailyTable) (n : String) (d : Nat) : Value :=
  match lookupCol n t.cols with
  | none => none
  | some vs => rowLookup t.dates vs d

/-- `daily_dataset.join(daily_aggregate)`: a left join on the date index.
The left table's rows and columns are kept as they are; each right column
is realigned to the left table's keys, missing where a key is absent from
the right table. -/
def joinTables (daily agg : DailyTable) : DailyTable :=
  { dates := daily.dates
  , cols := daily.cols ++ agg.cols.map
      (fun c => (c.1, daily.dates.map (fun d => rowLookup agg.dates c.2 d))) }

/-- `daily_joined[target_columns]`: keep the named columns, in the given
order (a name absent from the table is skipped; pandas would raise, and the
theorems assume presence where it matters). -/
def selectCols (t : DailyTable) (ns : List String) : DailyTable :=
  { dates := t.dates
  , cols := ns.filterMap (fun n => (lookupCol n t.cols).map (fun vs => (n, vs))) }

/-- `dropna(axis=1, how='all')`: drop every column whose cells are all
missing. -/
def dropAllMissingCols (t : DailyTable) : DailyTable :=
  { dates := t.dates, cols := t.cols.filter (fun c => c.2.any Option.isSome) }

/-- `target_columns`: the sub-daily VWC channel names followed by
`COSMOS_VWC`. -/
def targetColumns (sub : SrcTable) : List String := vwcNames sub ++ [cosmosCol]

/-- The Series Aligner: aggregate the sub-daily table, left-join onto the
native daily table, select the target columns and drop all-missing
columns. -/
def alignTables (daily : DailyTable) (sub : SrcTable) : Except AggError DailyTable :=
  (dailyAggregate sub).map (fun agg =>
    dropAllMissingCols (selectCols (joinTables daily agg) (targetColumns sub)))

/-- The Reshaper, `pd.melt(daily_joined, id_vars='DATE_TIME')`: one record
per cell, variable-major (all rows of the first value column, then the
next), missing cells included. -/
def melt (t : DailyTable) : List LongRec :=
  t.cols.flatMap (fun c => (t.dates.zip c.2).map (fun p => ⟨p.1, c.1, p.2⟩))

/-- The full in-scope pipeline of `site_daily`, from the two source tables
to the long-form records handed to the plotting collaborator. -/
def siteDaily (daily : DailyTable) (sub : SrcTable) : Except AggError (List LongRec) :=
  (alignTables daily sub).map melt

/-- Re-widening of a long form at key (d, n): the value of the first record
with that timestamp and sensor, if any. -/
def unmeltCell (rs : List LongRec) (d : Nat) (n : String) : Option Value :=
  (rs.find? (fun r => r.timestamp == d && r.sensor == n)).map LongRec.value

/-- A sequence of station selections run through the pipeline, each reading
its two tables fresh from the immutable catalog. -/
def runStations (catData : String → DailyTable × SrcTable) (sel : List String) :
    List (Except AggError (List LongRec)) :=
  sel.map (fun s => siteDaily (catData s).1 (catData s).2)

/-! ## General lemmas about the pipeline stages -/

lemma alignTables_ok (daily : DailyTable) (sub : SrcTable) (t : DailyTable)
    (h : alignTables daily sub = .ok t) :
    ∃ agg, dailyAggregate sub = .ok agg ∧
      t = dropAllMissingCols (selectCols (joinTables daily agg) (targetColumns sub)) := by
  unfold alignTables at h
  cases hagg : dailyAggregate sub with
  | error e => rw [hagg] at h; simp [Except.map] at h
  | ok agg =>
    rw [hagg] at h
    simp only [Except.map, Except.ok.injEq] at h
    exact ⟨agg, rfl, h.symm⟩

lemma dates_dropAllMissingCols (t : DailyTable) : (dropAllMissingCols t).dates = t.dates := rfl

lemma dates_selectCols (t : DailyTable) (ns : List String) :
    (selectCols t ns).dates = t.dates := rfl

lemma dates_joinTables (daily agg : DailyTable) :
    (joinTables daily agg).dates = daily.dates := rfl

/-! ## C1: row coverage of the Series Aligner -/

/-- Claim C1 (counterexample): the claim states that every calendar date
present in either input appears as a row of the aligned table. In the
spec's own concrete scenario — native daily dates 1 and 2 with
`COSMOS_VWC` = 30, 32; sub-daily observations on dates 1 and 3 with
`PROBE1_VWC` = 22, 25 — date 3 is present in the sub-daily input (the
timestamp 4320 truncates to date 3) yet it does not appear among the
aligned table's rows: `DataFrame.join` defaults to a left join. -/
theorem C1_counterexample :
    ∃ t, alignTables ⟨[1, 2], [(cosmosCol, [some 30, some 32])]⟩
          ⟨some [some 1440, some 4320], [("PROBE1_VWC", [some 22, some 25])]⟩ = .ok t
      ∧ tsDate 4320 = 3 ∧ ¬ (3 ∈ t.dates) :=
  ⟨⟨[1, 2], [("PROBE1_VWC", [some 22, none]), (cosmosCol, [some 30, some 32])]⟩,
    by with_unfolding_all rfl, by decide, by decide⟩

/-! ## Lemmas about sorted distinct group keys -/

lemma mem_insertDate (a d : Nat) (l : List Nat) : a ∈ insertDate d l ↔ a = d ∨ a ∈ l := by
  induction l with
  | nil => simp [insertDate]
  | cons e es ih =>
    unfold insertDate
    by_cases h1 : d < e
    · simp [h1]
    · by_cases h2 : d = e
      · subst h2
        rw [if_neg h1, if_pos rfl, List.mem_cons]
        tauto
      · simp only [if_neg h1, if_neg h2, List.mem_cons, ih]
        tauto

lemma sorted_insertDate (d : Nat) (l : List Nat) (hs : l.Sorted (· < ·)) :
    (insertDate d l).Sorted (· < ·) := by
  induction l with
  | nil => simp [insertDate]
  | cons e es ih =>
    rw [List.sorted_cons] at hs
    unfold insertDate
    by_cases h1 : d < e
    · rw [if_pos h1, List.sorted_cons]
      refine ⟨?_, List.sorted_cons.mpr hs⟩
      intro b hb
      rcases List.mem_cons.mp hb with rfl | hb
      · exact h1
      · exact h1.trans (hs.1 b hb)
    · by_cases h2 : d = e
      · rw [if_neg h1, if_pos h2]
        exact List.sorted_cons.mpr hs
      · rw [if_neg h1, if_neg h2, List.sorted_cons]
        refine ⟨?_, ih hs.2⟩
        intro b hb
        rcases (mem_insertDate b d es).mp hb with rfl | hb
        · omega
        · exact hs.1 b hb

lemma sortDedup_sorted (ds : List Nat) : (sortDedup ds).Sorted (· < ·) := by
  induction ds with
  | nil => simp [sortDedup]
  | cons d ds ih => exact sorted_insertDate d _ ih

lemma mem_sortDedup (a : Nat) (ds : List Nat) : a ∈ sortDedup ds ↔ a ∈ ds := by
  induction ds with
  | nil => simp [sortDedup]
  | cons d ds ih =>
    show a ∈ insertDate d (sortDedup ds) ↔ _
    rw [mem_insertDate, ih, List.mem_cons]

lemma sortDedup_nodup (ds : List Nat) : (sortDedup ds).Nodup :=
  (sortDedup_sorted ds).nodup

lemma insertDate_of_sorted_cons (d : Nat) (l : List Nat) (h : (d :: l).Sorted (· < ·)) :
    insertDate d l = d :: l := by
  cases l with
  | nil => rfl
  | cons e es =>
    rw [List.sorted_cons] at h
    unfold insertDate
    rw [if_pos (h.1 e (by simp))]

lemma sortDedup_of_sorted (ds : List Nat) (h : ds.Sorted (· < ·)) : sortDedup ds = ds := by
  induction ds with
  | nil => rfl
  | cons d ds ih =>
    show insertDate d (sortDedup ds) = d :: ds
    rw [ih (List.sorted_cons.mp h).2]
    exact insertDate_of_sorted_cons d ds h

/-! ## C3: the Daily Aggregator contract -/

lemma dailyAggregate_ok (sub : SrcTable) (agg : DailyTable)
    (h : dailyAggregate sub = .ok agg) :
    ∃ raw, sub.dateTime = some raw ∧ raw.all Option.isSome = true ∧
      agg = { dates := sortDedup ((raw.filterMap id).map tsDate)
            , cols := (sub.cols.filter (fun c => nameEndsWith c.1 vwcSuffix)).map
                (fun c => (c.1, (sortDedup ((raw.filterMap id).map tsDate)).map
                    (fun d => meanOpt (groupVals ((raw.filterMap id).map tsDate) c.2 d)))) } := by
  unfold dailyAggregate at h
  split at h
  next => exact absurd h (by simp)
  next raw heq =>
    split at h
    next hall =>
      simp only [Except.ok.injEq] at h
      exact ⟨raw, heq, hall, h.symm⟩
    next hall => exact absurd h (by simp)

/-- Claim C3: the Daily Aggregator produces one row per distinct calendar
date occurring among the (parsed) input timestamps; a channel appears in
the output exactly when its name carries the VWC suffix; and each VWC
channel's value on a date is the arithmetic mean of that date's
non-missing sub-daily observations — missing when all of them are missing,
never zero. -/
theorem C3_aggregator (sub : SrcTable) (raw : List (Option Nat)) (agg : DailyTable)
    (hdt : sub.dateTime = some raw)
    (hok : dailyAggregate sub = .ok agg) :
    agg.dates.Nodup
    ∧ (∀ d, d ∈ agg.dates ↔ ∃ ts, some ts ∈ raw ∧ tsDate ts = d)
    ∧ agg.cols.map Prod.fst
        = (sub.cols.map Prod.fst).filter (fun n => nameEndsWith n vwcSuffix)
    ∧ (∀ c ∈ sub.cols, nameEndsWith c.1 vwcSuffix = true →
        (c.1, agg.dates.map (fun d =>
            if (groupVals ((raw.filterMap id).map tsDate) c.2 d).length = 0 then none
            else some ((groupVals ((raw.filterMap id).map tsDate) c.2 d).sum
              / ((groupVals ((raw.filterMap id).map tsDate) c.2 d).length : ℚ))))
          ∈ agg.cols) := by
  obtain ⟨raw', hdt', hall, hagg⟩ := dailyAggregate_ok sub agg hok
  rw [hdt] at hdt'
  rw [Option.some.injEq] at hdt'
  subst hdt'
  subst hagg
  refine ⟨sortDedup_nodup _, ?_, ?_, ?_⟩
  · intro d
    rw [mem_sortDedup, List.mem_map]
    constructor
    · rintro ⟨ts, hts, rfl⟩
      rw [List.mem_filterMap] at hts
      obtain ⟨x, hx, hxe⟩ := hts
      have hx2 : x = some ts := hxe
      rw [hx2] at hx
      exact ⟨ts, hx, rfl⟩
    · rintro ⟨ts, hts, rfl⟩
      exact ⟨ts, List.mem_filterMap.mpr ⟨some ts, hts, rfl⟩, rfl⟩
  · rw [List.map_map]
    show (List.filter (fun c => nameEndsWith c.1 vwcSuffix) sub.cols).map Prod.fst = _
    exact (@List.filter_map (String × List Value) String
      (fun n => nameEndsWith n vwcSuffix) Prod.fst sub.cols).symm
  · intro c hc hvwc
    rw [List.mem_map]
    refine ⟨c, List.mem_filter.mpr ⟨hc, hvwc⟩, ?_⟩
    show _ = (c.1, (sortDedup _).map _)
    refine congrArg (fun vs => (c.1, vs)) ?_
    refine List.map_congr_left (fun d _ => ?_)
    rw [meanOpt]

/-- Witness for C3: the spec's concrete scenario — two same-day readings
20 and 24 of `PROBE1_VWC` aggregate to 22; the aggregated row key is
distinct. -/
theorem C3_aggregator_witness :
    (⟨[1], [("PROBE1_VWC", [some 22])]⟩ : DailyTable).dates.Nodup :=
  (C3_aggregator ⟨some [some 1440, some 1500], [("PROBE1_VWC", [some 20, some 24])]⟩
    [some 1440, some 1500] ⟨[1], [("PROBE1_VWC", [some 22])]⟩ rfl
    (by with_unfolding_all rfl)).1

/-! ## C2: the Reshaper and missing cells -/

lemma flatMap_const_length {α β : Type} (l : List α) (f : α → List β) (k : Nat)
    (h : ∀ a ∈ l, (f a).length = k) : (l.flatMap f).length = l.length * k := by
  induction l with
  | nil => simp
  | cons a l ih =>
    rw [List.flatMap_cons, List.length_append, h a (by simp),
      ih (fun b hb => h b (by simp [hb])), List.length_cons]
    ring

lemma length_melt (t : DailyTable) (hwf : t.wf) :
    (melt t).length = t.cols.length * t.dates.length := by
  unfold melt
  exact flatMap_const_length _ _ _ (fun c hc => by
    rw [List.length_map, List.length_zip, hwf c hc, min_self])

lemma mem_melt_of_cell (t : DailyTable) (hwf : t.wf) (c : Col) (hc : c ∈ t.cols)
    (i : Nat) (hi : i < t.dates.length) :
    (⟨t.dates.getD i 0, c.1, c.2.getD i none⟩ : LongRec) ∈ melt t := by
  have hi2 : i < c.2.length := by rw [hwf c hc]; exact hi
  unfold melt
  rw [List.mem_flatMap]
  refine ⟨c, hc, ?_⟩
  rw [List.mem_map]
  refine ⟨(t.dates.getD i 0, c.2.getD i none), ?_, rfl⟩
  have hz : i < (t.dates.zip c.2).length := by
    rw [List.length_zip]; exact lt_min hi hi2
  rw [List.mem_iff_getElem]
  refine ⟨i, hz, ?_⟩
  rw [List.getElem_zip, List.getD_eq_getElem _ _ hi, List.getD_eq_getElem _ _ hi2]

lemma mem_melt_elim (t : DailyTable) (r : LongRec) (hr : r ∈ melt t) :
    ∃ c ∈ t.cols, ∃ i, i < t.dates.length ∧
      r = ⟨t.dates.getD i 0, c.1, c.2.getD i none⟩ := by
  unfold melt at hr
  rw [List.mem_flatMap] at hr
  obtain ⟨c, hc, hrc⟩ := hr
  rw [List.mem_map] at hrc
  obtain ⟨p, hp, hr⟩ := hrc
  rw [List.mem_iff_getElem] at hp
  obtain ⟨i, hiz, hpi⟩ := hp
  have hlen := hiz
  rw [List.length_zip, lt_min_iff] at hlen
  refine ⟨c, hc, i, hlen.1, ?_⟩
  rw [← hr, ← hpi, List.getElem_zip,
    List.getD_eq_getElem _ _ hlen.1, List.getD_eq_getElem _ _ hlen.2]

/-- Claim C2 (counterexample): the claim states the long-form output has
no record at all for a missing cell. In the aligned table of the spec's
scenario the cell (date 2, `PROBE1_VWC`) is missing, yet `pd.melt` emits a
record for it (with a missing value): melt does not filter by
missingness. -/
theorem C2_counterexample :
    ∃ rs, siteDaily ⟨[1, 2], [(cosmosCol, [some 30, some 32])]⟩
            ⟨some [some 1440, some 4320], [("PROBE1_VWC", [some 22, some 25])]⟩ = .ok rs
      ∧ (⟨2, "PROBE1_VWC", none⟩ : LongRec) ∈ rs :=
  ⟨[⟨1, "PROBE1_VWC", some 22⟩, ⟨2, "PROBE1_VWC", none⟩,
    ⟨1, cosmosCol, some 30⟩, ⟨2, cosmosCol, some 32⟩],
    by with_unfolding_all rfl, by decide⟩

/-- Claim C2 (amended): the Reshaper emits exactly one record per cell of
the wide table — missing cells included, each as a record whose value is
missing — rather than only per non-missing cell: the record count is
(columns × rows), every cell yields its record, and every record comes
from a cell. -/
theorem C2_melt_cells (t : DailyTable) (hwf : t.wf) :
    (melt t).length = t.cols.length * t.dates.length ∧
    (∀ c ∈ t.cols, ∀ i, i < t.dates.length →
      (⟨t.dates.getD i 0, c.1, c.2.getD i none⟩ : LongRec) ∈ melt t) ∧
    (∀ r ∈ melt t, ∃ c ∈ t.cols, ∃ i, i < t.dates.length ∧
      r = ⟨t.dates.getD i 0, c.1, c.2.getD i none⟩) :=
  ⟨length_melt t hwf,
   fun c hc i hi => mem_melt_of_cell t hwf c hc i hi,
   fun r hr => mem_melt_elim t r hr⟩

/-- Witness for C2: the record count of the spec scenario's aligned table
(2 columns × 2 dates). -/
theorem C2_melt_cells_witness :
    (melt ⟨[1, 2], [("PROBE1_VWC", [some 22, none]), (cosmosCol, [some 30, some 32])]⟩).length
      = 2 * 2 :=
  (C2_melt_cells ⟨[1, 2], [("PROBE1_VWC", [some 22, none]), (cosmosCol, [some 30, some 32])]⟩
    (by decide)).1

/-! ## C5: pruning before reshaping -/

/-- Claim C5 (counterexample): the claim states every all-missing row is
removed before reshaping. With native daily dates 1, 2 where `COSMOS_VWC`
is missing on date 2 and the sub-daily data covers only date 1, the
aligned table's row for date 2 is entirely missing and yet is retained:
`dropna(axis=1, how='all')` prunes only columns. -/
theorem C5_counterexample :
    ∃ t, alignTables ⟨[1, 2], [(cosmosCol, [some 30, none])]⟩
          ⟨some [some 1440], [("PROBE1_VWC", [some 22])]⟩ = .ok t
      ∧ 2 ∈ t.dates ∧ ∀ c ∈ t.cols, rowLookup t.dates c.2 2 = none :=
  ⟨⟨[1, 2], [("PROBE1_VWC", [some 22, none]), (cosmosCol, [some 30, none])]⟩,
    by with_unfolding_all rfl, by decide, by decide⟩

/-- Claim C5 (amended): only columns composed entirely of missing values
are removed before reshaping — rows are never pruned (the row set is the
native daily table's dates, all-missing rows included); every retained
column has at least one non-missing cell, and consequently every record
the Reshaper emits references a sensor column with at least one
non-missing cell (an entirely-missing column contributes zero records). -/
theorem C5_column_prune (daily : DailyTable) (sub : SrcTable) (t : DailyTable)
    (h : alignTables daily sub = .ok t) :
    t.dates = daily.dates ∧
    (∀ c ∈ t.cols, c.2.any Option.isSome = true) ∧
    (∀ r ∈ melt t, ∃ c ∈ t.cols, r.sensor = c.1 ∧ c.2.any Option.isSome = true) := by
  obtain ⟨agg, -, ht⟩ := alignTables_ok daily sub t h
  have hcols : ∀ c ∈ t.cols, c.2.any Option.isSome = true := by
    intro c hc
    rw [ht] at hc
    exact (List.mem_filter.mp hc).2
  refine ⟨by rw [ht]; rfl, hcols, ?_⟩
  intro r hr
  obtain ⟨c, hc, i, hi, hre⟩ := mem_melt_elim t r hr
  exact ⟨c, hc, by rw [hre], hcols c hc⟩

/-- Witness for C5: the record for cell (date 1, `PROBE1_VWC`) of the
counterexample scenario's long form references a retained column with a
non-missing cell. -/
theorem C5_column_prune_witness :
    ∃ c ∈ (⟨[1, 2], [("PROBE1_VWC", [some 22, none]), (cosmosCol, [some 30, none])]⟩
        : DailyTable).cols,
      (⟨1, "PROBE1_VWC", some 22⟩ : LongRec).sensor = c.1 ∧
        c.2.any Option.isSome = true :=
  (C5_column_prune ⟨[1, 2], [(cosmosCol, [some 30, none])]⟩
    ⟨some [some 1440], [("PROBE1_VWC", [some 22])]⟩
    ⟨[1, 2], [("PROBE1_VWC", [some 22, none]), (cosmosCol, [some 30, none])]⟩
    (by with_unfolding_all rfl)).2.2 ⟨1, "PROBE1_VWC", some 22⟩ (by decide)

/-! ## Column lookup lemmas for the join and the selection -/

lemma lookupCol_append_left (n : String) (l1 l2 : List Col) (vs : List Value)
    (h : lookupCol n l1 = some vs) : lookupCol n (l1 ++ l2) = some vs := by
  induction l1 with
  | nil => exact absurd h (by simp [lookupCol])
  | cons c cs ih =>
    rw [List.cons_append]
    unfold lookupCol at h ⊢
    by_cases hc : c.1 = n
    · rw [if_pos hc] at h ⊢; exact h
    · rw [if_neg hc] at h ⊢; exact ih h

lemma mem_selectCols (t : DailyTable) (ns : List String) (c : Col)
    (hc : c ∈ (selectCols t ns).cols) :
    c.1 ∈ ns ∧ lookupCol c.1 t.cols = some c.2 := by
  unfold selectCols at hc
  rw [List.mem_filterMap] at hc
  obtain ⟨n, hn, he⟩ := hc
  cases hl : lookupCol n t.cols with
  | none => rw [hl] at he; exact absurd he (by simp)
  | some vs =>
    rw [hl] at he
    rw [Option.map_some', Option.some.injEq] at he
    rw [← he]
    exact ⟨hn, hl⟩

lemma selectCols_mem_of_lookup (t : DailyTable) (ns : List String) (n : String)
    (vs : List Value) (hn : n ∈ ns) (hl : lookupCol n t.cols = some vs) :
    (n, vs) ∈ (selectCols t ns).cols := by
  unfold selectCols
  rw [List.mem_filterMap]
  exact ⟨n, hn, by rw [hl, Option.map_some']⟩

lemma lookupCol_filterMap_last (tcols : List Col) (ns : List String) (n0 : String)
    (vs : List Value) (hn : ∀ n ∈ ns, n ≠ n0) (h : lookupCol n0 tcols = some vs) :
    lookupCol n0 (List.filterMap
        (fun n => Option.map (fun w => (n, w)) (lookupCol n tcols)) (ns ++ [n0]))
      = some vs := by
  induction ns with
  | nil =>
    simp only [List.nil_append, List.filterMap_cons, h, Option.map_some']
    unfold lookupCol
    rw [if_pos rfl]
  | cons m ms ih =>
    have ih' := ih (fun n hns => hn n (by simp [hns]))
    cases hm : lookupCol m tcols with
    | none => simpa only [List.cons_append, List.filterMap_cons, hm] using ih'
    | some w =>
      simp only [List.cons_append, List.filterMap_cons, hm, Option.map_some']
      unfold lookupCol
      rw [if_neg (hn m (by simp))]
      exact ih'

lemma lookupCol_selectCols_last (t : DailyTable) (ns : List String) (n0 : String)
    (vs : List Value) (hn : ∀ n ∈ ns, n ≠ n0) (h : lookupCol n0 t.cols = some vs) :
    lookupCol n0 (selectCols t (ns ++ [n0])).cols = some vs := by
  unfold selectCols
  exact lookupCol_filterMap_last t.cols ns n0 vs hn h

lemma lookupCol_filter_all_eq (n0 : String) (l : List Col) (q : Col → Bool)
    (vs : List Value) (h : lookupCol n0 l = some vs) (hq : q (n0, vs) = true)
    (huniq : ∀ c ∈ l, c.1 = n0 → c.2 = vs) :
    lookupCol n0 (l.filter q) = some vs := by
  induction l with
  | nil => exact absurd h (by simp [lookupCol])
  | cons c cs ih =>
    unfold lookupCol at h
    have huniq' : ∀ c' ∈ cs, c'.1 = n0 → c'.2 = vs :=
      fun c' hc' => huniq c' (by simp [hc'])
    by_cases hc : c.1 = n0
    · rw [if_pos hc] at h
      rw [Option.some.injEq] at h
      have hcel : c = (n0, vs) := by
        obtain ⟨c1, c2⟩ := c
        simp only at hc h
        rw [hc, h]
      rw [List.filter_cons, hcel, hq, if_pos rfl]
      unfold lookupCol
      rw [if_pos rfl]
    · rw [if_neg hc] at h
      rw [List.filter_cons]
      by_cases hqc : q c = true
      · rw [if_pos hqc]
        unfold lookupCol
        rw [if_neg hc]
        exact ih h huniq'
      · rw [if_neg hqc]
        exact ih h huniq'

lemma lookupCol_append_right (n : String) (l1 l2 : List Col)
    (h : lookupCol n l1 = none) : lookupCol n (l1 ++ l2) = lookupCol n l2 := by
  induction l1 with
  | nil => rfl
  | cons c cs ih =>
    unfold lookupCol at h
    rw [List.cons_append]
    have heq : lookupCol n (c :: (cs ++ l2))
        = if c.1 = n then some c.2 else lookupCol n (cs ++ l2) := rfl
    rw [heq]
    by_cases hc : c.1 = n
    · rw [if_pos hc] at h
      exact absurd h (by simp)
    · rw [if_neg hc] at h ⊢
      exact ih h

lemma lookupCol_map_vals (n : String) (l : List Col) (f : Col → List Value)
    (vs : List Value)
    (h : lookupCol n (l.map (fun c => (c.1, f c))) = some vs) :
    ∃ c ∈ l, c.1 = n ∧ vs = f c := by
  induction l with
  | nil => exact absurd h (by simp [lookupCol])
  | cons c cs ih =>
    rw [List.map_cons] at h
    unfold lookupCol at h
    dsimp only at h
    by_cases hc : c.1 = n
    · rw [if_pos hc, Option.some.injEq] at h
      exact ⟨c, by simp, hc, h.symm⟩
    · rw [if_neg hc] at h
      obtain ⟨c', hc', h1, h2⟩ := ih h
      exact ⟨c', by simp [hc'], h1, h2⟩

lemma rowLookup_not_mem (dates : List Nat) (vs : List Value) (d : Nat)
    (h : d ∉ dates) : rowLookup dates vs d = none := by
  have hf : (dates.zip vs).find? (fun p => p.1 == d) = none := by
    rw [List.find?_eq_none]
    rintro ⟨a, b⟩ hab hba
    rw [beq_iff_eq] at hba
    have ha : a = d := hba
    exact h (by rw [← ha]; exact (List.of_mem_zip hab).1)
  unfold rowLookup
  rw [hf]

/-! ## C10: the join never rewrites the native daily channel -/

/-- Claim C10: the aligned table carries the native daily `COSMOS_VWC`
column through unchanged — same rows, the identical column value list, and
on every date the aligned table's `COSMOS_VWC` cell equals the native
daily table's cell; joining the aggregated sub-daily columns never
modifies it. -/
theorem C10_frame (daily : DailyTable) (sub : SrcTable) (t : DailyTable) (cvs : List Value)
    (hok : alignTables daily sub = .ok t)
    (hcos : lookupCol cosmosCol daily.cols = some cvs)
    (hdisj : cosmosCol ∉ vwcNames sub)
    (hnm : cvs.any Option.isSome = true) :
    t.dates = daily.dates ∧ lookupCol cosmosCol t.cols = some cvs ∧
    ∀ d, getCell t cosmosCol d = getCell daily cosmosCol d := by
  obtain ⟨agg, hagg, ht⟩ := alignTables_ok daily sub t hok
  have hdates : t.dates = daily.dates := by rw [ht]; rfl
  have hjoin : lookupCol cosmosCol (joinTables daily agg).cols = some cvs :=
    lookupCol_append_left _ _ _ _ hcos
  have hsel : lookupCol cosmosCol
      (selectCols (joinTables daily agg) (targetColumns sub)).cols = some cvs := by
    unfold targetColumns
    exact lookupCol_selectCols_last _ _ _ _
      (fun n hn he => hdisj (he ▸ hn)) hjoin
  have hlk : lookupCol cosmosCol t.cols = some cvs := by
    rw [ht]
    unfold dropAllMissingCols
    refine lookupCol_filter_all_eq _ _ _ _ hsel hnm (fun c hc hc1 => ?_)
    obtain ⟨-, hl⟩ := mem_selectCols _ _ c hc
    rw [hc1] at hl
    rw [hjoin, Option.some.injEq] at hl
    exact hl.symm
  refine ⟨hdates, hlk, fun d => ?_⟩
  unfold getCell
  rw [hlk, hcos, hdates]

/-- Witness for C10: in the spec scenario, the aligned table's
`COSMOS_VWC` column is the native daily column [30, 32] unchanged. -/
theorem C10_frame_witness :
    lookupCol cosmosCol
      (⟨[1, 2], [("PROBE1_VWC", [some 22, none]), (cosmosCol, [some 30, some 32])]⟩
        : DailyTable).cols = some [some 30, some 32] :=
  (C10_frame ⟨[1, 2], [(cosmosCol, [some 30, some 32])]⟩
    ⟨some [some 1440, some 4320], [("PROBE1_VWC", [some 22, some 25])]⟩ _ _
    (by with_unfolding_all rfl) (by decide) (by decide) (by decide)).2.1

/-! ## C4: the column invariant of the Series Aligner -/

/-- Claim C4: every column retained by the Series Aligner ends in the VWC
suffix or is the designated native daily channel `COSMOS_VWC`; and a name
is retained exactly when it is a sub-daily VWC channel name or
`COSMOS_VWC`, and its column in the joined table is not entirely missing
(entirely-missing columns are dropped). -/
theorem C4_columns (daily : DailyTable) (sub : SrcTable) (agg t : DailyTable)
    (hagg : dailyAggregate sub = .ok agg)
    (hok : alignTables daily sub = .ok t) :
    (∀ n ∈ t.cols.map Prod.fst, nameEndsWith n vwcSuffix = true ∨ n = cosmosCol) ∧
    (∀ n, n ∈ t.cols.map Prod.fst ↔
      ((n ∈ vwcNames sub ∨ n = cosmosCol) ∧
        ∃ vs, lookupCol n (joinTables daily agg).cols = some vs ∧
          vs.any Option.isSome = true)) := by
  obtain ⟨agg', hagg', ht⟩ := alignTables_ok daily sub t hok
  rw [hagg'] at hagg
  rw [Except.ok.injEq] at hagg
  subst hagg
  have fwd : ∀ n, n ∈ t.cols.map Prod.fst →
      ((n ∈ vwcNames sub ∨ n = cosmosCol) ∧
        ∃ vs, lookupCol n (joinTables daily agg').cols = some vs ∧
          vs.any Option.isSome = true) := by
    intro n hn
    rw [List.mem_map] at hn
    obtain ⟨c, hc, rfl⟩ := hn
    rw [ht] at hc
    unfold dropAllMissingCols at hc
    rw [List.mem_filter] at hc
    obtain ⟨hcs, hany⟩ := hc
    obtain ⟨htc, hl⟩ := mem_selectCols _ _ c hcs
    unfold targetColumns at htc
    rw [List.mem_append, List.mem_singleton] at htc
    exact ⟨htc, c.2, hl, hany⟩
  constructor
  · intro n hn
    rcases (fwd n hn).1 with hvn | hcn
    · unfold vwcNames at hvn
      rw [List.mem_filter] at hvn
      exact Or.inl hvn.2
    · exact Or.inr hcn
  · intro n
    constructor
    · exact fwd n
    · rintro ⟨htc, vs, hl, hany⟩
      have hmem : (n, vs) ∈ (selectCols (joinTables daily agg') (targetColumns sub)).cols := by
        refine selectCols_mem_of_lookup _ _ _ _ ?_ hl
        unfold targetColumns
        rw [List.mem_append, List.mem_singleton]
        exact htc
      have hkept : (n, vs) ∈ t.cols := by
        rw [ht]
        unfold dropAllMissingCols
        rw [List.mem_filter]
        exact ⟨hmem, hany⟩
      exact List.mem_map_of_mem Prod.fst hkept

/-- Witness for C4: the invariant holds of the spec scenario's aligned
table, instantiated at its retained column `PROBE1_VWC`. -/
theorem C4_columns_witness :
    nameEndsWith "PROBE1_VWC" vwcSuffix = true ∨ "PROBE1_VWC" = cosmosCol :=
  (C4_columns ⟨[1, 2], [(cosmosCol, [some 30, some 32])]⟩
    ⟨some [some 1440, some 4320], [("PROBE1_VWC", [some 22, some 25])]⟩
    ⟨[1, 3], [("PROBE1_VWC", [some 22, some 25])]⟩
    ⟨[1, 2], [("PROBE1_VWC", [some 22, none]), (cosmosCol, [some 30, some 32])]⟩
    (by with_unfolding_all rfl) (by with_unfolding_all rfl)).1
    "PROBE1_VWC" (by decide)

/-! ## C1 (amended): left-join row coverage and missing cells -/

/-- Claim C1 (amended): the join is left-preserving on the date key: the
aligned table's rows are exactly the native daily table's dates, in the
native table's row order (so a date present only in the sub-daily
aggregate does not appear as a row); and every retained sub-daily-origin
column has a missing cell at each native date for which the sub-daily
aggregate lacks a value (a date absent from the aggregate's rows). -/
theorem C1_left_join (daily : DailyTable) (sub : SrcTable) (agg t : DailyTable)
    (hagg : dailyAggregate sub = .ok agg)
    (hok : alignTables daily sub = .ok t)
    (hdisj : ∀ n ∈ vwcNames sub, lookupCol n daily.cols = none) :
    t.dates = daily.dates ∧
    (∀ c ∈ t.cols, c.1 ≠ cosmosCol → ∀ i, i < t.dates.length →
      t.dates.getD i 0 ∉ agg.dates → c.2.getD i none = none) := by
  obtain ⟨agg', hagg', ht⟩ := alignTables_ok daily sub t hok
  rw [hagg'] at hagg
  rw [Except.ok.injEq] at hagg
  subst hagg
  have hdates : t.dates = daily.dates := by rw [ht]; rfl
  refine ⟨hdates, ?_⟩
  intro c hc hne i hi hmem
  rw [ht] at hc
  unfold dropAllMissingCols at hc
  rw [List.mem_filter] at hc
  obtain ⟨hcs, -⟩ := hc
  obtain ⟨htc, hl⟩ := mem_selectCols _ _ c hcs
  unfold targetColumns at htc
  rw [List.mem_append, List.mem_singleton] at htc
  have hvn : c.1 ∈ vwcNames sub := htc.resolve_right hne
  unfold joinTables at hl
  dsimp only at hl
  rw [lookupCol_append_right c.1 daily.cols _ (hdisj c.1 hvn)] at hl
  obtain ⟨c', hc', hc1, hvs⟩ := lookupCol_map_vals c.1 agg'.cols
    (fun c' => daily.dates.map (fun d => rowLookup agg'.dates c'.2 d)) c.2 hl
  rw [hvs]
  have hi' : i < daily.dates.length := by rw [← hdates]; exact hi
  rw [List.getD_eq_getElem _ _ (by rw [List.length_map]; exact hi'), List.getElem_map]
  apply rowLookup_not_mem
  have hgd : t.dates.getD i 0 = daily.dates[i] := by
    rw [hdates, List.getD_eq_getElem _ _ hi']
  rw [← hgd]
  exact hmem

/-- Witness for C1: in the spec's concrete scenario, the aligned table's
`PROBE1_VWC` cell at the native date 2 — a date the sub-daily aggregate
lacks — is missing. -/
theorem C1_left_join_witness :
    (("PROBE1_VWC", [some 22, none]) : Col).2.getD 1 none = none :=
  (C1_left_join ⟨[1, 2], [(cosmosCol, [some 30, some 32])]⟩
    ⟨some [some 1440, some 4320], [("PROBE1_VWC", [some 22, some 25])]⟩
    ⟨[1, 3], [("PROBE1_VWC", [some 22, some 25])]⟩
    ⟨[1, 2], [("PROBE1_VWC", [some 22, none]), (cosmosCol, [some 30, some 32])]⟩
    (by with_unfolding_all rfl) (by with_unfolding_all rfl) (by decide)).2
    ("PROBE1_VWC", [some 22, none]) (by decide) (by decide) 1 (by decide) (by decide)

/-! ## C6: the Reshaper round-trip -/

lemma find?_melt_block_ne (dates : List Nat) (c : Col) (d : Nat) (n : String)
    (hne : c.1 ≠ n) :
    ((dates.zip c.2).map (fun p => (⟨p.1, c.1, p.2⟩ : LongRec))).find?
        (fun r => r.timestamp == d && r.sensor == n) = none := by
  rw [List.find?_eq_none]
  intro r hr
  rw [List.mem_map] at hr
  obtain ⟨p, hp, rfl⟩ := hr
  simp only [Bool.and_eq_true, beq_iff_eq, not_and]
  exact fun _ => hne

lemma find?_melt_block_eq (dates : List Nat) (nm : String) (vs : List Value) (i : Nat)
    (hnd : dates.Nodup) (hi : i < dates.length) (hv : i < vs.length) :
    ((dates.zip vs).map (fun p => (⟨p.1, nm, p.2⟩ : LongRec))).find?
        (fun r => r.timestamp == dates.getD i 0 && r.sensor == nm)
      = some ⟨dates.getD i 0, nm, vs.getD i none⟩ := by
  induction dates generalizing vs i with
  | nil => exact absurd hi (by simp)
  | cons d ds ih =>
    cases vs with
    | nil => exact absurd hv (by simp)
    | cons v vs =>
      rw [List.nodup_cons] at hnd
      cases i with
      | zero =>
        rw [List.getD_cons_zero, List.zip_cons_cons, List.map_cons,
          List.find?_cons_of_pos _ (by simp), List.getD_cons_zero]
      | succ i =>
        have hi' : i < ds.length := Nat.lt_of_succ_lt_succ (by simpa using hi)
        have hv' : i < vs.length := Nat.lt_of_succ_lt_succ (by simpa using hv)
        have hdm : ds.getD i 0 ∈ ds := by
          rw [List.getD_eq_getElem ds 0 hi']
          exact List.getElem_mem hi'
        rw [List.zip_cons_cons, List.map_cons]
        dsimp only
        rw [List.getD_cons_succ, List.getD_cons_succ]
        have hpred : ¬ (((⟨d, nm, v⟩ : LongRec).timestamp == ds.getD i 0
            && (⟨d, nm, v⟩ : LongRec).sensor == nm) = true) := by
          intro hcontra
          rw [Bool.and_eq_true, beq_iff_eq] at hcontra
          have hd2 : d ∈ ds := by rw [show d = ds.getD i 0 from hcontra.1]; exact hdm
          exact hnd.1 hd2
        rw [@List.find?_cons_of_neg LongRec
          (fun r => r.timestamp == ds.getD i 0 && r.sensor == nm) ⟨d, nm, v⟩ _ hpred]
        exact ih vs i hnd.2 hi' hv'

lemma find?_melt_cols (dates : List Nat) (cols : List Col) (hnd : dates.Nodup)
    (hnc : (cols.map Prod.fst).Nodup) (c : Col) (hc : c ∈ cols) (i : Nat)
    (hi : i < dates.length) (hv : i < c.2.length) :
    (cols.flatMap (fun c' => (dates.zip c'.2).map
        (fun p => (⟨p.1, c'.1, p.2⟩ : LongRec)))).find?
        (fun r => r.timestamp == dates.getD i 0 && r.sensor == c.1)
      = some ⟨dates.getD i 0, c.1, c.2.getD i none⟩ := by
  induction cols with
  | nil => cases hc
  | cons c0 cols ih =>
    rw [List.map_cons, List.nodup_cons] at hnc
    rw [List.flatMap_cons, List.find?_append]
    rcases List.mem_cons.mp hc with rfl | hc'
    · rw [find?_melt_block_eq dates c.1 c.2 i hnd hi hv]
      rfl
    · have hne : c0.1 ≠ c.1 := by
        intro he
        exact hnc.1 (he ▸ List.mem_map_of_mem Prod.fst hc')
      rw [find?_melt_block_ne dates c0 (dates.getD i 0) c.1 hne, Option.none_or]
      exact ih hnc.2 hc'

/-- Claim C6: reshaping is lossless on non-missing cells — re-widening the
long form at a row's date and a retained column's name returns exactly the
original cell value for every non-missing cell of the aligned daily table
(assuming unique dates and column names, which the aligned table has). -/
theorem C6_roundtrip (t : DailyTable) (hwf : t.wf) (hnd : t.dates.Nodup)
    (hnc : (t.cols.map Prod.fst).Nodup) :
    ∀ c ∈ t.cols, ∀ i q, i < t.dates.length → c.2.getD i none = some q →
      unmeltCell (melt t) (t.dates.getD i 0) c.1 = some (some q) := by
  intro c hc i q hi hq
  have hv : i < c.2.length := by rw [hwf c hc]; exact hi
  unfold unmeltCell melt
  rw [find?_melt_cols t.dates t.cols hnd hnc c hc i hi hv, Option.map_some']
  rw [← hq]

/-- Witness for C6: re-widening the spec scenario's long form at
(date 1, `PROBE1_VWC`) returns the original cell 22. -/
theorem C6_roundtrip_witness :
    unmeltCell (melt ⟨[1, 2], [("PROBE1_VWC", [some 22, none]),
        (cosmosCol, [some 30, some 32])]⟩) 1 "PROBE1_VWC" = some (some 22) :=
  C6_roundtrip ⟨[1, 2], [("PROBE1_VWC", [some 22, none]), (cosmosCol, [some 30, some 32])]⟩
    (by decide) (by decide) (by decide) ("PROBE1_VWC", [some 22, none]) (by decide)
    0 22 (by decide) (by decide)

/-! ## C7: idempotence of the Daily Aggregator -/

/-- The Daily Aggregator's own output read back as a source table: the
date index becomes the `DATE_TIME` column (midnight timestamps). -/
def dailyToSrc (t : DailyTable) : SrcTable :=
  ⟨some (t.dates.map (fun d => some (d * minutesPerDay))), t.cols⟩

lemma groupVals_at_nodup (ds : List Nat) (vs : List Value) (j : Nat)
    (hnd : ds.Nodup) (hj : j < ds.length) (hv : j < vs.length) :
    groupVals ds vs (ds.getD j 0) = (vs.getD j none).toList := by
  induction ds generalizing vs j with
  | nil => exact absurd hj (by simp)
  | cons d ds ih =>
    cases vs with
    | nil => exact absurd hv (by simp)
    | cons v vs =>
      rw [List.nodup_cons] at hnd
      cases j with
      | zero =>
        rw [List.getD_cons_zero, List.getD_cons_zero]
        unfold groupVals
        rw [List.zip_cons_cons, List.filterMap_cons]
        have htail : List.filterMap (fun p => if p.1 = d then p.2 else none)
            (ds.zip vs) = [] := by
          rw [List.filterMap_eq_nil_iff]
          rintro ⟨a, b⟩ hab
          have ha : a ∈ ds := (List.of_mem_zip hab).1
          rw [if_neg (by rintro rfl; exact hnd.1 ha)]
        cases v with
        | none => simp [htail]
        | some q => simp [htail]
      | succ j =>
        have hj' : j < ds.length := Nat.lt_of_succ_lt_succ (by simpa using hj)
        have hv' : j < vs.length := Nat.lt_of_succ_lt_succ (by simpa using hv)
        have hdm : ds.getD j 0 ∈ ds := by
          rw [List.getD_eq_getElem ds 0 hj']
          exact List.getElem_mem hj'
        rw [List.getD_cons_succ, List.getD_cons_succ]
        unfold groupVals
        rw [List.zip_cons_cons, List.filterMap_cons]
        rw [if_neg (by rintro rfl; exact hnd.1 hdm)]
        exact ih vs j hnd.2 hj' hv'

lemma meanOpt_toList (v : Value) : meanOpt v.toList = v := by
  cases v with
  | none => rfl
  | some q =>
    unfold meanOpt Option.toList
    rw [if_neg (by simp)]
    simp

/-- Claim C7: the Daily Aggregator is idempotent — applied to a table that
is already daily-keyed (strictly increasing date key, the shape of its own
output, all channels VWC-suffixed), it returns the table unchanged. -/
theorem C7_idempotent (t : DailyTable) (hs : t.dates.Sorted (· < ·)) (hwf : t.wf)
    (hv : ∀ c ∈ t.cols, nameEndsWith c.1 vwcSuffix = true) :
    dailyAggregate (dailyToSrc t) = .ok t := by
  have hall : (t.dates.map (fun d => some (d * minutesPerDay))).all Option.isSome
      = true := by
    rw [List.all_eq_true]
    intro x hx
    rw [List.mem_map] at hx
    obtain ⟨d, -, rfl⟩ := hx
    rfl
  have hrow : ((t.dates.map (fun d => some (d * minutesPerDay))).filterMap id).map tsDate
      = t.dates := by
    rw [List.filterMap_map]
    rw [show (id ∘ fun d => some (d * minutesPerDay))
        = (some ∘ fun d => d * minutesPerDay) from rfl]
    rw [List.filterMap_eq_map, List.map_map]
    refine (List.map_congr_left (fun d _ => ?_)).trans (List.map_id t.dates)
    show d * minutesPerDay / minutesPerDay = d
    exact Nat.mul_div_cancel d (by norm_num [minutesPerDay])
  simp only [dailyAggregate, dailyToSrc, hall, if_true]
  rw [hrow, sortDedup_of_sorted t.dates hs]
  rw [List.filter_eq_self.mpr hv]
  rw [Except.ok.injEq]
  obtain ⟨dates, cols⟩ := t
  simp only [DailyTable.mk.injEq, true_and]
  refine (List.map_congr_left (fun c hc => ?_)).trans (List.map_id cols)
  show (c.1, dates.map fun d => meanOpt (groupVals dates c.2 d)) = c
  obtain ⟨n, vs⟩ := c
  simp only [Prod.mk.injEq, true_and]
  have hnd : dates.Nodup := hs.nodup
  have hlen : vs.length = dates.length := hwf (n, vs) hc
  refine List.ext_getElem (by simp [hlen]) (fun j h1 h2 => ?_)
  rw [List.length_map] at h1
  rw [List.getElem_map]
  rw [show dates[j] = dates.getD j 0 from (List.getD_eq_getElem dates 0 h1).symm]
  rw [groupVals_at_nodup dates vs j hnd h1 (by rw [hlen]; exact h1)]
  rw [meanOpt_toList]
  rw [List.getD_eq_getElem vs none h2]

/-- Witness for C7: re-aggregating a daily-keyed table with one VWC
channel (including a missing cell) returns it unchanged. -/
theorem C7_idempotent_witness :
    dailyAggregate (dailyToSrc ⟨[1, 2], [("PROBE1_VWC", [some 22, none])]⟩)
      = .ok ⟨[1, 2], [("PROBE1_VWC", [some 22, none])]⟩ :=
  C7_idempotent ⟨[1, 2], [("PROBE1_VWC", [some 22, none])]⟩
    (by decide) (by decide) (by decide)

/-! ## C8: determinism and statelessness across selections -/

/-- Claim C8: for a fixed immutable catalog, a selection sequence A, B, A
computes each station's long-form output afresh from the catalog alone;
the first and third outputs (both station A) are identical, with no state
carried between invocations. -/
theorem C8_stateless (catData : String → DailyTable × SrcTable) (a b : String) :
    runStations catData [a, b, a]
      = [siteDaily (catData a).1 (catData a).2,
         siteDaily (catData b).1 (catData b).2,
         siteDaily (catData a).1 (catData a).2]
    ∧ (runStations catData [a, b, a]).getD 0 (.error .invalidInput)
        = (runStations catData [a, b, a]).getD 2 (.error .invalidInput) :=
  ⟨rfl, rfl⟩

/-! ## C9: input validation at the Aggregator boundary -/

/-- Claim C9: the Daily Aggregator fails — necessarily with InvalidInput,
the only error it can produce — if and only if the `DATE_TIME` column is
absent or one of its entries failed to parse; no other validation happens
at this boundary, and the error propagates unchanged through the full
pipeline (it is not retried). -/
theorem C9_validation (sub : SrcTable) (daily : DailyTable) :
    (dailyAggregate sub = .error .invalidInput
      ↔ sub.dateTime = none ∨ ∃ raw, sub.dateTime = some raw ∧ ∃ x ∈ raw, x = none)
    ∧ (dailyAggregate sub = .error .invalidInput →
        siteDaily daily sub = .error .invalidInput) := by
  constructor
  · unfold dailyAggregate
    cases hdt : sub.dateTime with
    | none => simp
    | some raw =>
      by_cases hall : raw.all Option.isSome
      · simp only [hall, if_true]
        constructor
        · intro h; exact absurd h (by simp)
        · rintro (h | ⟨raw', hraw', x, hx, rfl⟩)
          · exact absurd h (by simp)
          · rw [Option.some.injEq] at hraw'
            subst hraw'
            rw [List.all_eq_true] at hall
            exact absurd (hall _ hx) (by simp)
      · simp only [hall, if_false]
        refine ⟨fun _ => Or.inr ⟨raw, rfl, ?_⟩, fun _ => rfl⟩
        rw [List.all_eq_true] at hall
        push_neg at hall
        obtain ⟨x, hx, hxs⟩ := hall
        exact ⟨x, hx, Option.not_isSome_iff_eq_none.mp (by simpa using hxs)⟩
  · intro h
    unfold siteDaily alignTables
    rw [h]
    rfl

/-- Witness for C9: a source table lacking the `DATE_TIME` column makes
the Aggregator fail with InvalidInput. -/
theorem C9_validation_witness :
    dailyAggregate ⟨none, [("PROBE1_VWC", [some 22])]⟩ = .error .invalidInput :=
  (C9_validation ⟨none, [("PROBE1_VWC", [some 22])]⟩ ⟨[], []⟩).1.mpr (Or.inl rfl)

end Cosmos
